import Mathlib

/-! Verification development for the Communication-Improvement repository.

Two pieces of logic are embedded, straight from the TypeScript source:

* the three-run consensus aggregator of the Gemini service, in its two
  variants present in the repository (src/unnamed/part_003 with required-field
  validation and name-keyed dimension averaging, and src/unnamed/part_004 with
  toFixed(2) rounding and position-keyed dimension averaging), and
* the mistake highlighter of the HighlightedText component
  (src/unnamed/part_002), including the semantics of the escaped, joined,
  case-insensitive regular expression and of String.prototype.split with a
  capturing group.

JavaScript numbers are modelled as exact rationals, JavaScript strings as
lists of characters, and toLowerCase as character-wise Char.toLower. -/

namespace CommImprove

/-- JavaScript strings are modelled as lists of characters. -/
abbrev Str := List Char

/-- Character-wise lower casing, the model of String.prototype.toLowerCase. -/
def lc (c : Char) : Char := c.toLower

/-- Case-insensitive string equality, the model of the component's
a.toLowerCase() === b.toLowerCase() comparison. -/
def ciEq (a b : Str) : Bool := a.map lc == b.map lc

/-- Dimension record of types.ts (src/unnamed/part_000): name plus 0-5 score. -/
structure Dimension where
  name : Str
  score : ℚ
deriving DecidableEq

/-- Mistake record of types.ts (src/unnamed/part_000). -/
structure Mistake where
  incorrectPhrase : Str
  correction : Str
  explanation : Str
deriving DecidableEq

/-- Speaker tag of a conversation turn. -/
inductive Speaker where
  | user
  | ai
deriving DecidableEq

/-- ConversationTurn of types.ts; the optional mistakes array is modelled with
the absent case collapsed to the empty list, which the highlighter treats
identically. -/
structure ConversationTurn where
  speaker : Speaker
  text : Str
  mistakes : List Mistake
deriving DecidableEq

/-- FillerWordUsage of types.ts. -/
structure FillerWordUsage where
  word : Str
  count : Nat
deriving DecidableEq

/-- AnalysisResult of types.ts (src/unnamed/part_000). -/
structure AnalysisResult where
  overallScore : ℚ
  dimensionAnalysis : List Dimension
  feedback : List Str
  fillerWords : List FillerWordUsage
  conversation : List ConversationTurn
deriving DecidableEq

/-- A parsed JSON payload before the required-field check of
performSingleAnalysis (src/unnamed/part_003, lines 121-127): every required
field may be absent. -/
structure RawResult where
  overallScore : Option ℚ
  dimensionAnalysis : Option (List Dimension)
  feedback : Option (List Str)
  fillerWords : Option (List FillerWordUsage)
  conversation : Option (List ConversationTurn)
deriving DecidableEq

/-- The error message thrown by the required-field check. -/
def invalidMsg : String := "Invalid response structure from API. Missing required fields."

/-- performSingleAnalysis of src/unnamed/part_003 (lines 111-128).  The input
models the outcome of the generateContent call plus JSON.parse; the guard
models the JavaScript truthiness test on each required field: an absent field
is falsy, a present overallScore equal to 0 is likewise falsy, and a present
array field is always truthy (even when the array is empty). -/
def performSingleAnalysis (call : Except String RawResult) : Except String AnalysisResult :=
  match call with
  | .error e => .error e
  | .ok raw =>
    match raw.overallScore, raw.dimensionAnalysis, raw.feedback, raw.fillerWords, raw.conversation with
    | some s, some dims, some fb, some fw, some conv =>
      if s = 0 then .error invalidMsg
      else .ok { overallScore := s, dimensionAnalysis := dims, feedback := fb,
                 fillerWords := fw, conversation := conv }
    | _, _, _, _, _ => .error invalidMsg

/-- Promise.all over the three in-flight analysis calls: the aggregate resolves
with all three results, or rejects with a failing call's error (the first in
list order, the deterministic model of the first rejection). -/
def promiseAll3 {α : Type} (a b c : Except String α) : Except String (α × α × α) :=
  match a with
  | .error e => .error e
  | .ok ra =>
    match b with
    | .error e => .error e
    | .ok rb =>
      match c with
      | .error e => .error e
      | .ok rc => .ok (ra, rb, rc)

/-- Score of the first dimension with the given name, or 0 when no dimension
has that name: result.dimensionAnalysis.find with the correspondingDim-or-0
fallback of src/unnamed/part_003 (lines 158-159). -/
def dimLookupScore (dims : List Dimension) (name : Str) : ℚ :=
  match dims.find? (fun d => d.name == name) with
  | some d => d.score
  | none => 0

/-- Merge step of analyzeAudio in src/unnamed/part_003 (lines 147-167): spread
of results[0], overallScore replaced by the plain mean over the three runs,
and each first-run dimension replaced by the mean over the three runs of the
same-named score, a run lacking the name contributing 0.  The code applies no
rounding here.  The if-guard on finalResult.dimensionAnalysis of line 155 is
always taken, an array being truthy. -/
def mergeResults (r1 r2 r3 : AnalysisResult) : AnalysisResult :=
  let results := [r1, r2, r3]
  { r1 with
    overallScore := (results.map (fun r => r.overallScore)).sum / 3,
    dimensionAnalysis := r1.dimensionAnalysis.map (fun dim =>
      { name := dim.name,
        score := (results.map (fun r => dimLookupScore r.dimensionAnalysis dim.name)).sum / 3 }) }

/-- analyzeAudio of src/unnamed/part_003 (lines 130-178): three independent
calls joined Promise.all style, then the merge; any error propagates unchanged
through the catch block (which rethrows Error instances as-is). -/
def analyzeAudio (c1 c2 c3 : Except String RawResult) : Except String AnalysisResult :=
  match promiseAll3 (performSingleAnalysis c1) (performSingleAnalysis c2) (performSingleAnalysis c3) with
  | .error e => .error e
  | .ok (r1, r2, r3) => .ok (mergeResults r1 r2 r3)

/-- Rounding to 2 decimal places, the exact-rational model of
parseFloat(x.toFixed(2)): halves round up, which matches toFixed's
away-from-zero ties for the nonnegative scores at hand. -/
def round2 (x : ℚ) : ℚ := (⌊x * 100 + 1 / 2⌋ : ℚ) / 100

/-- Mistake record of the part_004 variant's types (suggestion in place of
correction). -/
structure Mistake4 where
  incorrectPhrase : Str
  suggestion : Str
  explanation : Str
deriving DecidableEq

/-- ConversationTurn of the part_004 variant: at most one mistake per turn. -/
structure ConversationTurn4 where
  speaker : Speaker
  text : Str
  mistake : Option Mistake4
deriving DecidableEq

/-- AnalysisResult of the part_004 variant: the dimension list is called
dimensions. -/
structure AnalysisResult4 where
  overallScore : ℚ
  dimensions : List Dimension
  feedback : List Str
  fillerWords : List FillerWordUsage
  conversation : List ConversationTurn4
deriving DecidableEq

/-- analyzeAudio of src/unnamed/part_004 (lines 96-132), merge stage: the
overall score is the mean of the three runs rounded to 2 decimals, and each of
run 0's dimensions is averaged positionally over r.dimensions[index] and
rounded to 2 decimals.  A run whose dimensions list is shorter than run 0's
makes the index access undefined, the loop throw, and the catch produce the
generic failure message. -/
def analyzeAudio4 (s1 s2 s3 : AnalysisResult4) : Except String AnalysisResult4 :=
  let results := [s1, s2, s3]
  let overall := round2 ((results.map (fun r => r.overallScore)).sum / (results.length : ℚ))
  match s1.dimensions.enum.mapM (fun p =>
      (results.mapM (fun (r : AnalysisResult4) => r.dimensions.get? p.1)).map (fun ds =>
        { name := p.2.name,
          score := round2 ((ds.map (fun d => d.score)).sum / (results.length : ℚ)) })) with
  | some dims => .ok { s1 with overallScore := overall, dimensions := dims }
  | none => .error "Failed to analyze audio. The model may have had trouble with the file."

/-- A span of turn text produced by the highlighter: plain, or flagged with
the associated mistake. -/
inductive Span where
  | plain : Str → Span
  | flagged : Str → Mistake → Span
deriving DecidableEq

/-- The text carried by a span. -/
def spanText : Span → Str
  | .plain s => s
  | .flagged s _ => s

/-- Case-insensitive anchored match of a literal phrase at the front of the
text, the model of one escaped alternative of the regular expression under the
i flag. -/
def ciStartsWith : Str → Str → Bool
  | [], _ => true
  | _ :: _, [] => false
  | p :: ps, t :: ts => (lc p == lc t) && ciStartsWith ps ts

/-- Anchored attempt of the alternation of literal phrases at the current
position: alternatives are tried in declaration order and the first hit gives
the length of the matched text. -/
def matchAt (phrases : List Str) (t : Str) : Option Nat :=
  match phrases with
  | [] => none
  | p :: ps => if ciStartsWith p t then some p.length else matchAt ps t

/-- Main loop of String.prototype.split with a single capturing group
(ECMA-262 SplitMatch loop).  pending is the input from the last emitted
position p on, k is the scan offset q - p.  Both the chunk before a match and
the captured matched text are emitted, and a zero-length match at the last
emitted position is skipped.  The fuel argument is a step bound; callers pass
enough for the whole scan. -/
def splitLoop (phrases : List Str) : Nat → Str → Nat → List Str
  | 0, pending, _ => [pending]
  | fuel + 1, pending, k =>
    if k < pending.length then
      match matchAt phrases (pending.drop k) with
      | none => splitLoop phrases fuel pending (k + 1)
      | some n =>
        if k + n = 0 then splitLoop phrases fuel pending (k + 1)
        else pending.take k :: (pending.drop k).take n ::
             splitLoop phrases fuel ((pending.drop k).drop n) 0
    else [pending]

/-- text.split(regex) for the alternation-of-literals regular expression with
flags g and i: an empty input splits to nothing when the pattern matches the
empty string and to itself otherwise; a nonempty input runs the scan loop. -/
def splitRegex (phrases : List Str) (t : Str) : List Str :=
  if t.isEmpty then
    match matchAt phrases t with
    | some _ => []
    | none => [t]
  else splitLoop phrases (2 * t.length + 2) t 0

/-- The HighlightedText component of src/unnamed/part_002 (lines 10-47):
empty (or absent) mistakes give the bare text; otherwise the text is split on
the escaped alternation, empty parts are dropped, and each part equal
case-insensitively to some incorrectPhrase becomes a flagged span carrying the
first such mistake, every other part a plain span. -/
def highlightedText (text : Str) (mistakes : List Mistake) : List Span :=
  if mistakes.isEmpty then [Span.plain text]
  else
    let parts := (splitRegex (mistakes.map (fun m => m.incorrectPhrase)) text).filter
      (fun p => !p.isEmpty)
    parts.map (fun part =>
      match mistakes.find? (fun m => ciEq m.incorrectPhrase part) with
      | some m => Span.flagged part m
      | none => Span.plain part)

/-- The character class escaped by the replace call on line 17 of
src/unnamed/part_002. -/
def metaChars : List Char := ['.', '*', '+', '?', '^', '$', '{', '}', '(', ')', '|', '[', ']', '\\']

/-- incorrectPhrase.replace over the metacharacter class: a backslash is
inserted before every regular-expression metacharacter. -/
def escapeRegex : Str → Str
  | [] => []
  | c :: cs => if metaChars.contains c then '\\' :: c :: escapeRegex cs else c :: escapeRegex cs

/-- Reads a pattern fragment as a literal string: an escaped character stands
for itself, an unescaped metacharacter is pattern syntax (so no literal
reading exists), and any other character stands for itself. -/
def litOfEscaped (l : Str) : Option Str :=
  match l with
  | [] => some []
  | c :: cs =>
    if c = '\\' then
      match cs with
      | [] => none
      | d :: ds => (litOfEscaped ds).map (fun l2 => d :: l2)
    else if metaChars.contains c then none
    else (litOfEscaped cs).map (fun l2 => c :: l2)

/-- Concatenation of a list of string parts, in order. -/
def catParts : List Str → Str
  | [] => []
  | p :: ps => p ++ catParts ps

/-- The merged per-dimension score in the words of the specification: the sum
over the three runs of that run's score for a same-named dimension, a run
lacking the dimension contributing 0, divided by the number of runs. -/
def specDimMergedScore (r1 r2 r3 : AnalysisResult) (name : Str) : ℚ :=
  (dimLookupScore r1.dimensionAnalysis name + dimLookupScore r2.dimensionAnalysis name +
    dimLookupScore r3.dimensionAnalysis name) / 3

/-- A validated run payload with the given overall score and single Clarity
dimension score, all qualitative fields empty. -/
def rawRun (s dimScore : ℚ) : RawResult :=
  { overallScore := some s,
    dimensionAnalysis := some [{ name := "Clarity".data, score := dimScore }],
    feedback := some [], fillerWords := some [], conversation := some [] }

/-- The validated AnalysisResult corresponding to rawRun. -/
def arRun (s dimScore : ℚ) : AnalysisResult :=
  { overallScore := s,
    dimensionAnalysis := [{ name := "Clarity".data, score := dimScore }],
    feedback := [], fillerWords := [], conversation := [] }

/-- Concrete aggregation of the three runs scored 3, 4, 5 with Clarity scored
2, 3, 4 (the end-to-end scenario of the specification), as computed by the
part_003 service. -/
def mergedW : AnalysisResult :=
  match analyzeAudio (.ok (rawRun 3 2)) (.ok (rawRun 4 3)) (.ok (rawRun 5 4)) with
  | .ok r => r
  | .error _ => arRun 0 0

/-- A part_004 run with the given overall score and single Clarity dimension
score. -/
def ar4Run (s dimScore : ℚ) : AnalysisResult4 :=
  { overallScore := s,
    dimensions := [{ name := "Clarity".data, score := dimScore }],
    feedback := [], fillerWords := [], conversation := [] }

/-- Concrete aggregation of the same three runs by the part_004 service. -/
def merged4W : AnalysisResult4 :=
  match analyzeAudio4 (ar4Run 3 2) (ar4Run 4 3) (ar4Run 5 4) with
  | .ok r => r
  | .error _ => ar4Run 0 0

/-- Concrete mistake used by the highlighter witnesses: the incorrect phrase
contains the regular-expression metacharacter for an optional atom. -/
def mQ : Mistake :=
  { incorrectPhrase := "what is up?".data,
    correction := "how are you".data,
    explanation := "informal".data }

/-- Concrete mistake with the empty incorrect phrase. -/
def mEmpty : Mistake :=
  { incorrectPhrase := [], correction := "x".data, explanation := "y".data }

/-- Concrete mistake flagging the phrase foo. -/
def mFoo : Mistake :=
  { incorrectPhrase := "foo".data, correction := "bar".data, explanation := "baz".data }

/-- Concrete mistake flagging the phrase b. -/
def mB : Mistake :=
  { incorrectPhrase := "b".data, correction := "c".data, explanation := "d".data }

/-- Concrete parsed payload whose conversation field is absent. -/
def rawNoConv : RawResult :=
  { overallScore := some 3, dimensionAnalysis := some [], feedback := some [],
    fillerWords := some [], conversation := none }

/-- A parsed payload in which every required field is present but the overall
score is 0. -/
def rawAllPresentZero (dims : List Dimension) (fb : List Str) (fw : List FillerWordUsage)
    (cv : List ConversationTurn) : RawResult :=
  { overallScore := some 0, dimensionAnalysis := some dims, feedback := some fb,
    fillerWords := some fw, conversation := some cv }

/-- Head dimension of the concrete merged result of the three runs scored 3,
4 and 5 with Clarity scored 2, 3 and 4. -/
def dW : Dimension :=
  match (mergeResults (arRun 3 2) (arRun 4 3) (arRun 5 4)).dimensionAnalysis with
  | d :: _ => d
  | [] => { name := [], score := 0 }

/-- A first-run payload with nonempty qualitative fields. -/
def rawF : RawResult :=
  { overallScore := some 3,
    dimensionAnalysis := some [{ name := "Clarity".data, score := 2 }],
    feedback := some ["slow down".data, "breathe".data],
    fillerWords := some [{ word := "um".data, count := 4 }],
    conversation := some [{ speaker := Speaker.user, text := "hi there".data, mistakes := [] }] }

/-- The concrete aggregation whose first run is rawF. -/
def mergedF : AnalysisResult :=
  match analyzeAudio (.ok rawF) (.ok (rawRun 4 3)) (.ok (rawRun 5 4)) with
  | .ok r => r
  | .error _ => arRun 0 0

end CommImprove

namespace CommImprove

theorem catParts_splitLoop (phrases : List Str) :
    ∀ (fuel : Nat) (pending : Str) (k : Nat),
      catParts (splitLoop phrases fuel pending k) = pending := by
  intro fuel
  induction fuel with
  | zero => intro pending k; simp [splitLoop, catParts]
  | succ n ih =>
    intro pending k
    rw [splitLoop]
    split
    · split
      · exact ih pending (k + 1)
      · split
        · exact ih pending (k + 1)
        · simp only [catParts, ih]
          rw [List.take_append_drop, List.take_append_drop]
    · simp [catParts]

theorem catParts_splitRegex (phrases : List Str) (t : Str) :
    catParts (splitRegex phrases t) = t := by
  unfold splitRegex
  cases t with
  | nil => cases hm : matchAt phrases [] <;> simp [hm, catParts]
  | cons c cs => simp [catParts_splitLoop]

theorem catParts_filter_nonempty (l : List Str) :
    catParts (l.filter (fun p => !p.isEmpty)) = catParts l := by
  induction l with
  | nil => rfl
  | cons p ps ih =>
    cases p with
    | nil => simpa [catParts, List.filter] using ih
    | cons c cs => simp [catParts, List.filter, ih]

/-- C6: for every input text, the highlighter applied to an empty (or absent)
mistake list returns exactly one plain span carrying the whole input text
unchanged. -/
theorem c6_empty_mistakes_single_plain_span (text : Str) :
    highlightedText text [] = [Span.plain text] := rfl

/-- C7: for every input text and every mistake list, the texts of the spans
the highlighter returns concatenate, in order, to exactly the original input
text. -/
theorem c7_spans_concat_roundtrip (text : Str) (mistakes : List Mistake) :
    catParts ((highlightedText text mistakes).map spanText) = text := by
  cases mistakes with
  | nil => simp [highlightedText, catParts, spanText]
  | cons m0 ms =>
    unfold highlightedText
    simp only [List.isEmpty_cons, Bool.false_eq_true, if_false]
    generalize hparts : (splitRegex ((m0 :: ms).map (fun m => m.incorrectPhrase)) text).filter
        (fun p => !p.isEmpty) = parts
    have hcat : catParts parts = text := by
      rw [← hparts, catParts_filter_nonempty, catParts_splitRegex]
    rw [← hcat]
    clear hparts hcat
    induction parts with
    | nil => rfl
    | cons p ps ih =>
      simp only [List.map_cons, catParts]
      rw [ih]
      cases hf : (m0 :: ms).find? (fun m => ciEq m.incorrectPhrase p) <;>
        simp [spanText, hf]

end CommImprove

namespace CommImprove

/-- C9 (amended): a mistake whose incorrectPhrase is the empty string never
yields a flagged span — every flagged span the highlighter emits carries a
mistake with a nonempty incorrectPhrase — and the highlighter is total (never
fails).  The further clause of the original claim, that the output is
equivalent to the output without that mistake, is false: see the
counterexample, where the empty alternative splits the text into
single-character plain spans and masks a later phrase. -/
theorem c9_empty_phrase_never_flagged (text : Str) (mistakes : List Mistake)
    (part : Str) (m : Mistake)
    (hmem : Span.flagged part m ∈ highlightedText text mistakes) :
    m.incorrectPhrase ≠ [] := by
  cases mistakes with
  | nil =>
    simp [highlightedText] at hmem
  | cons m0 ms =>
    unfold highlightedText at hmem
    simp only [List.isEmpty_cons, Bool.false_eq_true, if_false] at hmem
    rw [List.mem_map] at hmem
    obtain ⟨p', hp', hassign⟩ := hmem
    rw [List.mem_filter] at hp'
    obtain ⟨-, hne⟩ := hp'
    have hpne : p' ≠ [] := by
      intro hcon
      subst hcon
      simp at hne
    cases hf : (m0 :: ms).find? (fun mm => ciEq mm.incorrectPhrase p') with
    | none => rw [hf] at hassign; simp at hassign
    | some mm =>
      rw [hf] at hassign
      simp only [Span.flagged.injEq] at hassign
      obtain ⟨hpp, hmm⟩ := hassign
      subst hmm
      have hci := List.find?_some hf
      rw [ciEq, beq_iff_eq] at hci
      intro hcon
      rw [hcon] at hci
      simp only [List.map_nil] at hci
      exact hpne (List.map_eq_nil_iff.mp hci.symm)

/-- C9 counterexample: with the text foo and the mistake list consisting of an
empty-phrase mistake followed by a mistake flagging foo, the highlighter
returns three single-character plain spans, while without the empty-phrase
mistake it returns one flagged span; the outputs are not equivalent, refuting
the degrades-to-no-match clause of the claim. -/
theorem c9_counterexample :
    highlightedText "foo".data [mEmpty, mFoo] =
      [Span.plain "f".data, Span.plain "o".data, Span.plain "o".data] ∧
    highlightedText "foo".data [mFoo] = [Span.flagged "foo".data mFoo] ∧
    highlightedText "foo".data [mEmpty, mFoo] ≠ highlightedText "foo".data [mFoo] :=
  ⟨by decide, by decide, by decide⟩

/-- C9 witness: the amended theorem applied to the concrete flagged span b of
the highlighted text abc. -/
theorem c9_witness :
    (Span.flagged "b".data mB ∈ highlightedText "abc".data [mB]) ∧
    mB.incorrectPhrase ≠ [] :=
  ⟨by decide, c9_empty_phrase_never_flagged "abc".data [mB] "b".data mB (by decide)⟩

end CommImprove

namespace CommImprove

theorem litOfEscaped_escapeRegex (p : Str) : litOfEscaped (escapeRegex p) = some p := by
  induction p with
  | nil => rfl
  | cons c cs ih =>
    by_cases hc : metaChars.contains c
    · rw [escapeRegex, if_pos hc, litOfEscaped.eq_def]
      simp [ih]
    · rw [escapeRegex, if_neg hc, litOfEscaped.eq_def]
      have hcb : ¬(c = '\\') := by
        intro h
        subst h
        exact hc (by decide)
      simp only [hcb, if_false, ih]
      have hcm : c ∉ metaChars := by simpa using hc
      simp [hcm]

theorem ciStartsWith_map_take (p : Str) :
    ∀ t : Str, ciStartsWith p t = true → (t.take p.length).map lc = p.map lc := by
  induction p with
  | nil => intro t _; simp
  | cons c cs ih =>
    intro t h
    cases t with
    | nil => simp [ciStartsWith] at h
    | cons d ds =>
      rw [ciStartsWith, Bool.and_eq_true, beq_iff_eq] at h
      obtain ⟨h1, h2⟩ := h
      simp [List.take, ih ds h2, h1]

theorem ciEq_comm (a b : Str) : ciEq a b = ciEq b a := by
  unfold ciEq
  by_cases h : a.map lc = b.map lc
  · simp [h]
  · simp [beq_eq_false_iff_ne.mpr h, beq_eq_false_iff_ne.mpr (Ne.symm h)]

theorem matchAt_single (p t : Str) :
    matchAt [p] t = if ciStartsWith p t then some p.length else none := rfl

theorem ciStartsWith_ne_nil {p t : Str} (hp : p ≠ []) (h : ciStartsWith p t = true) :
    t ≠ [] := by
  intro hcon
  subst hcon
  cases p with
  | nil => exact hp rfl
  | cons a as => simp [ciStartsWith] at h

theorem splitLoop_exists_part (p : Str) (hp : p ≠ []) :
    ∀ (fuel : Nat) (pending : Str) (k i : Nat), k ≤ i → i - k < fuel →
      ciStartsWith p (pending.drop i) = true →
      ∃ part ∈ splitLoop [p] fuel pending k, ciEq part p = true := by
  intro fuel
  induction fuel with
  | zero => intro pending k i hki hif _; omega
  | succ n ih =>
    intro pending k i hki hif hci
    have hi_lt : i < pending.length := by
      by_contra hcon
      push_neg at hcon
      rw [List.drop_eq_nil_iff.mpr hcon] at hci
      exact ciStartsWith_ne_nil hp hci rfl
    have hk_lt : k < pending.length := lt_of_le_of_lt hki hi_lt
    rw [splitLoop, if_pos hk_lt]
    split
    · rename_i hm
      have hne2 : ciStartsWith p (pending.drop k) = false := by
        rw [matchAt_single] at hm
        by_cases hcc : ciStartsWith p (pending.drop k) = true
        · simp [hcc] at hm
        · simpa using hcc
      have hki' : k + 1 ≤ i := by
        rcases Nat.lt_or_ge k i with hlt | hge
        · omega
        · exfalso
          have hkeq : k = i := le_antisymm hki hge
          subst hkeq
          rw [hne2] at hci
          exact absurd hci (by simp)
      exact ih pending (k + 1) i hki' (by omega) hci
    · rename_i L hm
      have hmm : ciStartsWith p (pending.drop k) = true ∧ L = p.length := by
        rw [matchAt_single] at hm
        by_cases hcc : ciStartsWith p (pending.drop k) = true
        · rw [if_pos hcc] at hm
          injection hm with hLL
          exact ⟨hcc, hLL.symm⟩
        · simp [hcc] at hm
      obtain ⟨hcik, hL⟩ := hmm
      have hLpos : 0 < L := by
        rw [hL]
        cases p with
        | nil => exact absurd rfl hp
        | cons a as => simp
      rw [if_neg (by omega)]
      refine ⟨(pending.drop k).take L, ?_, ?_⟩
      · simp
      · rw [hL, ciEq, beq_iff_eq]
        exact ciStartsWith_map_take p (pending.drop k) hcik

/-- C8: matching is literal and case-insensitive.  First, escaping makes every
character literal: interpreting the escaped phrase as a pattern fragment reads
back exactly the original phrase, with no character left as pattern syntax
(including metacharacters such as the question mark of the phrase in mQ).
Second, any case-insensitive occurrence of a nonempty incorrectPhrase in the
text is recognized: the highlighter emits a flagged span for that mistake
whose text equals the phrase up to letter case. -/
theorem c8_literal_and_case_insensitive :
    (∀ p : Str, litOfEscaped (escapeRegex p) = some p) ∧
    ∀ (m : Mistake) (t : Str) (i : Nat), m.incorrectPhrase ≠ [] →
      ciStartsWith m.incorrectPhrase (t.drop i) = true →
      ∃ part, Span.flagged part m ∈ highlightedText t [m] ∧
        ciEq part m.incorrectPhrase = true := by
  refine ⟨litOfEscaped_escapeRegex, ?_⟩
  intro m t i hne hci
  have ht : t ≠ [] := by
    intro hcon
    subst hcon
    rw [List.drop_nil] at hci
    exact ciStartsWith_ne_nil hne hci rfl
  have hdropne : t.drop i ≠ [] := ciStartsWith_ne_nil hne hci
  have hi_lt : i < t.length := by
    by_contra hcon
    push_neg at hcon
    exact hdropne (List.drop_eq_nil_iff.mpr hcon)
  obtain ⟨part, hmem, hciEq⟩ :=
    splitLoop_exists_part m.incorrectPhrase hne (2 * t.length + 2) t 0 i (Nat.zero_le i)
      (by omega) hci
  have hsplit : splitRegex [m.incorrectPhrase] t =
      splitLoop [m.incorrectPhrase] (2 * t.length + 2) t 0 := by
    unfold splitRegex
    cases t with
    | nil => exact absurd rfl ht
    | cons c cs => simp
  have hpne : part ≠ [] := by
    intro hcon
    subst hcon
    rw [ciEq, beq_iff_eq] at hciEq
    simp only [List.map_nil] at hciEq
    exact hne (List.map_eq_nil_iff.mp hciEq.symm)
  refine ⟨part, ?_, hciEq⟩
  unfold highlightedText
  simp only [List.isEmpty_cons, Bool.false_eq_true, if_false]
  rw [List.mem_map]
  refine ⟨part, ?_, ?_⟩
  · rw [List.mem_filter]
    constructor
    · simpa [hsplit] using hmem
    · simp [List.isEmpty_iff, hpne]
  · have hfind : ciEq m.incorrectPhrase part = true := by rw [ciEq_comm]; exact hciEq
    simp [List.find?, hfind]

/-- C8 witness: the theorem applied to the concrete mistake whose phrase
carries a question mark, occurring in upper case inside the text. -/
theorem c8_witness :
    (mQ.incorrectPhrase ≠ [] ∧
      ciStartsWith mQ.incorrectPhrase ("Hey WHAT IS UP? ok".data.drop 4) = true) ∧
    ∃ part, Span.flagged part mQ ∈ highlightedText "Hey WHAT IS UP? ok".data [mQ] ∧
      ciEq part mQ.incorrectPhrase = true :=
  ⟨⟨by decide, by decide⟩,
    c8_literal_and_case_insensitive.2 mQ "Hey WHAT IS UP? ok".data 4 (by decide) (by decide)⟩

end CommImprove

namespace CommImprove

theorem analyzeAudio_err_first {c1 : Except String RawResult} (c2 c3 : Except String RawResult)
    {e : String} (h : performSingleAnalysis c1 = .error e) :
    analyzeAudio c1 c2 c3 = .error e := by
  simp [analyzeAudio, promiseAll3, h]

theorem analyzeAudio_err_second (c1 : Except String RawResult) {c2 : Except String RawResult}
    (c3 : Except String RawResult) {e : String} (h : performSingleAnalysis c2 = .error e) :
    ∃ e2, analyzeAudio c1 c2 c3 = .error e2 := by
  cases h1 : performSingleAnalysis c1 with
  | error e1 => exact ⟨e1, by simp [analyzeAudio, promiseAll3, h1]⟩
  | ok r1 => exact ⟨e, by simp [analyzeAudio, promiseAll3, h1, h]⟩

theorem analyzeAudio_err_third (c1 c2 : Except String RawResult)
    {c3 : Except String RawResult} {e : String} (h : performSingleAnalysis c3 = .error e) :
    ∃ e2, analyzeAudio c1 c2 c3 = .error e2 := by
  cases h1 : performSingleAnalysis c1 with
  | error e1 => exact ⟨e1, by simp [analyzeAudio, promiseAll3, h1]⟩
  | ok r1 =>
    cases h2 : performSingleAnalysis c2 with
    | error e2 => exact ⟨e2, by simp [analyzeAudio, promiseAll3, h1, h2]⟩
    | ok r2 => exact ⟨e, by simp [analyzeAudio, promiseAll3, h1, h2, h]⟩

/-- C4: if any one of the three analysis calls fails — its single-run pipeline
produces an error, be it a transport error or the validation throw — the whole
aggregation is an error; no AnalysisResult, partial or otherwise, reaches the
caller and no merge happens. -/
theorem c4_any_failure_fails_aggregation (c1 c2 c3 : Except String RawResult)
    (h : (∃ e, performSingleAnalysis c1 = .error e) ∨
         (∃ e, performSingleAnalysis c2 = .error e) ∨
         (∃ e, performSingleAnalysis c3 = .error e)) :
    ∃ e, analyzeAudio c1 c2 c3 = .error e := by
  rcases h with ⟨e, he⟩ | ⟨e, he⟩ | ⟨e, he⟩
  · exact ⟨e, analyzeAudio_err_first c2 c3 he⟩
  · exact analyzeAudio_err_second c1 c3 he
  · exact analyzeAudio_err_third c1 c2 he

/-- C4 witness: a concrete transport failure of the first call makes the
concrete aggregation fail. -/
theorem c4_witness :
    ((∃ e, performSingleAnalysis (Except.error "network failure") = .error e) ∨
     (∃ e, performSingleAnalysis (.ok (rawRun 4 3)) = .error e) ∨
     (∃ e, performSingleAnalysis (.ok (rawRun 5 4)) = .error e)) ∧
    ∃ e, analyzeAudio (Except.error "network failure") (.ok (rawRun 4 3)) (.ok (rawRun 5 4)) =
      .error e :=
  ⟨Or.inl ⟨"network failure", rfl⟩,
    c4_any_failure_fails_aggregation _ _ _ (Or.inl ⟨"network failure", rfl⟩)⟩

/-- C5: a parsed response missing any of the five required fields makes its
run throw the validation error, and the whole aggregation fails, whichever of
the three positions the bad run occupies, before any merging of scores. -/
theorem c5_missing_field_fails (raw : RawResult) (c c2 : Except String RawResult)
    (h : raw.overallScore = none ∨ raw.dimensionAnalysis = none ∨ raw.feedback = none ∨
         raw.fillerWords = none ∨ raw.conversation = none) :
    performSingleAnalysis (.ok raw) = .error invalidMsg ∧
    (∃ e, analyzeAudio (.ok raw) c c2 = .error e) ∧
    (∃ e, analyzeAudio c (.ok raw) c2 = .error e) ∧
    (∃ e, analyzeAudio c c2 (.ok raw) = .error e) := by
  have hps : performSingleAnalysis (.ok raw) = .error invalidMsg := by
    obtain ⟨o, d, f, w, cv⟩ := raw
    cases o <;> cases d <;> cases f <;> cases w <;> cases cv <;>
      simp_all [performSingleAnalysis]
  exact ⟨hps, ⟨invalidMsg, analyzeAudio_err_first c c2 hps⟩,
    analyzeAudio_err_second c c2 hps, analyzeAudio_err_third c c2 hps⟩

/-- C5 witness: the theorem applied to a concrete payload whose conversation
field is absent. -/
theorem c5_witness :
    (rawNoConv.conversation = none) ∧
    (performSingleAnalysis (.ok rawNoConv) = .error invalidMsg ∧
     (∃ e, analyzeAudio (.ok rawNoConv) (.ok (rawRun 4 3)) (.ok (rawRun 5 4)) = .error e) ∧
     (∃ e, analyzeAudio (.ok (rawRun 4 3)) (.ok rawNoConv) (.ok (rawRun 5 4)) = .error e) ∧
     (∃ e, analyzeAudio (.ok (rawRun 4 3)) (.ok (rawRun 5 4)) (.ok rawNoConv) = .error e)) :=
  ⟨rfl, c5_missing_field_fails rawNoConv (.ok (rawRun 4 3)) (.ok (rawRun 5 4))
    (Or.inr (Or.inr (Or.inr (Or.inr rfl))))⟩

/-- C10: the required-field check tests truthiness, not presence: a payload in
which every required field is present but overallScore equals 0 — a value
inside the documented 0-to-5 score range — is rejected with the
missing-required-fields validation error, and the aggregation containing it
fails. -/
theorem c10_zero_overall_score_rejected (dims : List Dimension) (fb : List Str)
    (fw : List FillerWordUsage) (cv : List ConversationTurn) (c2 c3 : Except String RawResult) :
    (rawAllPresentZero dims fb fw cv).overallScore = some 0 ∧
    performSingleAnalysis (.ok (rawAllPresentZero dims fb fw cv)) = .error invalidMsg ∧
    analyzeAudio (.ok (rawAllPresentZero dims fb fw cv)) c2 c3 = .error invalidMsg ∧
    ((0:ℚ) ≤ 0 ∧ (0:ℚ) ≤ 5) := by
  have hps : performSingleAnalysis (.ok (rawAllPresentZero dims fb fw cv)) =
      .error invalidMsg := by
    simp [performSingleAnalysis, rawAllPresentZero]
  exact ⟨rfl, hps, analyzeAudio_err_first c2 c3 hps, le_refl 0, by norm_num⟩

/-- C3: every successful aggregation takes its feedback, fillerWords and
conversation fields verbatim from the first run's validated result; the other
runs contribute nothing to them. -/
theorem c3_qualitative_fields_from_first_run (c1 c2 c3 : Except String RawResult)
    (res : AnalysisResult) (h : analyzeAudio c1 c2 c3 = .ok res) :
    ∃ r1, performSingleAnalysis c1 = .ok r1 ∧
      res.feedback = r1.feedback ∧ res.fillerWords = r1.fillerWords ∧
      res.conversation = r1.conversation := by
  cases h1 : performSingleAnalysis c1 with
  | error e => simp [analyzeAudio, promiseAll3, h1] at h
  | ok r1 =>
    cases h2 : performSingleAnalysis c2 with
    | error e => simp [analyzeAudio, promiseAll3, h1, h2] at h
    | ok r2 =>
      cases h3 : performSingleAnalysis c3 with
      | error e => simp [analyzeAudio, promiseAll3, h1, h2, h3] at h
      | ok r3 =>
        have hres : res = mergeResults r1 r2 r3 := by
          simp [analyzeAudio, promiseAll3, h1, h2, h3] at h
          exact h.symm
        subst hres
        exact ⟨r1, rfl, rfl, rfl, rfl⟩

end CommImprove

namespace CommImprove

/-- C1 (amended): for every aggregation in which all three runs return
validated AnalysisResults, the part_003 service's merged overallScore equals
the plain arithmetic mean of the three runs' overallScore values, with no
rounding applied; it is the part_004 variant of the service whose merged
overallScore equals the mean rounded to 2 decimal places.  The rounding clause
of the original claim fails on the part_003 service: see the counterexample. -/
theorem c1_overall_mean_amended (c1 c2 c3 : Except String RawResult)
    (r1 r2 r3 res : AnalysisResult) (s1 s2 s3 res4 : AnalysisResult4)
    (h1 : performSingleAnalysis c1 = .ok r1) (h2 : performSingleAnalysis c2 = .ok r2)
    (h3 : performSingleAnalysis c3 = .ok r3) (h : analyzeAudio c1 c2 c3 = .ok res)
    (h4 : analyzeAudio4 s1 s2 s3 = .ok res4) :
    res.overallScore = (r1.overallScore + r2.overallScore + r3.overallScore) / 3 ∧
    res4.overallScore = round2 ((s1.overallScore + s2.overallScore + s3.overallScore) / 3) := by
  constructor
  · have hres : res = mergeResults r1 r2 r3 := by
      simp [analyzeAudio, promiseAll3, h1, h2, h3] at h
      exact h.symm
    subst hres
    simp [mergeResults]
    ring
  · simp only [analyzeAudio4] at h4
    split at h4
    · rename_i dims hm
      rw [Except.ok.injEq] at h4
      subst h4
      simp only []
      congr 1
      simp [List.sum_cons]
      ring
    · exact absurd h4 (by simp)

/-- C1 counterexample: three validated runs with overall scores 1, 1 and 2
merge, in the part_003 service, to overallScore 4/3, which differs from the
claimed value, the mean rounded to 2 decimal places, 1.33. -/
theorem c1_rounding_counterexample :
    (analyzeAudio (.ok (rawRun 1 2)) (.ok (rawRun 1 2)) (.ok (rawRun 2 3))).map
        (fun r => r.overallScore) = .ok (4 / 3) ∧
    round2 (((1:ℚ) + 1 + 2) / 3) = 133 / 100 ∧ ((4:ℚ) / 3 ≠ 133 / 100) := by
  refine ⟨?_, ?_, by norm_num⟩
  · have h : analyzeAudio (.ok (rawRun 1 2)) (.ok (rawRun 1 2)) (.ok (rawRun 2 3)) =
        .ok (mergeResults (arRun 1 2) (arRun 1 2) (arRun 2 3)) := rfl
    rw [h]
    simp [mergeResults, arRun, Except.map]
    norm_num
  · unfold round2
    norm_num

/-- C1 witness: the amended theorem applied to the concrete runs scored 3, 4
and 5, in both service variants. -/
theorem c1_witness :
    (performSingleAnalysis (.ok (rawRun 3 2)) = .ok (arRun 3 2) ∧
     performSingleAnalysis (.ok (rawRun 4 3)) = .ok (arRun 4 3) ∧
     performSingleAnalysis (.ok (rawRun 5 4)) = .ok (arRun 5 4) ∧
     analyzeAudio (.ok (rawRun 3 2)) (.ok (rawRun 4 3)) (.ok (rawRun 5 4)) = .ok mergedW ∧
     analyzeAudio4 (ar4Run 3 2) (ar4Run 4 3) (ar4Run 5 4) = .ok merged4W) ∧
    (mergedW.overallScore =
        ((arRun 3 2).overallScore + (arRun 4 3).overallScore + (arRun 5 4).overallScore) / 3 ∧
     merged4W.overallScore =
        round2 (((ar4Run 3 2).overallScore + (ar4Run 4 3).overallScore +
          (ar4Run 5 4).overallScore) / 3)) :=
  ⟨⟨rfl, rfl, rfl, rfl, rfl⟩,
   c1_overall_mean_amended (.ok (rawRun 3 2)) (.ok (rawRun 4 3)) (.ok (rawRun 5 4))
     (arRun 3 2) (arRun 4 3) (arRun 5 4) mergedW
     (ar4Run 3 2) (ar4Run 4 3) (ar4Run 5 4) merged4W rfl rfl rfl rfl rfl⟩

/-- C2 (amended): the merged dimension list carries exactly the first run's
dimension names in the first run's order — dimensions absent from the first
run do not appear — and every merged dimension's score is the sum over the
three runs of that run's score for a same-named dimension, a run lacking the
dimension contributing 0, divided by 3, with no rounding applied.  The
rounding clause of the original claim fails on the code: see the
counterexample. -/
theorem c2_dimension_merge_amended (r1 r2 r3 : AnalysisResult) :
    ((mergeResults r1 r2 r3).dimensionAnalysis.map (fun d => d.name) =
      r1.dimensionAnalysis.map (fun d => d.name)) ∧
    ∀ d ∈ (mergeResults r1 r2 r3).dimensionAnalysis,
      d.score = specDimMergedScore r1 r2 r3 d.name := by
  constructor
  · simp only [mergeResults, List.map_map]
    rfl
  · intro d hd
    simp only [mergeResults] at hd
    rw [List.mem_map] at hd
    obtain ⟨dim, hdim, hEq⟩ := hd
    rw [← hEq]
    simp [specDimMergedScore]
    ring

/-- C2 counterexample: three validated runs with Clarity scored 2, 2 and 3
merge, in the part_003 service, to the Clarity score 7/3, which differs from
the claimed value, the mean rounded to 2 decimal places, 2.33. -/
theorem c2_rounding_counterexample :
    (mergeResults (arRun 1 2) (arRun 1 2) (arRun 2 3)).dimensionAnalysis =
      [{ name := "Clarity".data, score := 7 / 3 }] ∧
    round2 (((2:ℚ) + 2 + 3) / 3) = 233 / 100 ∧ ((7:ℚ) / 3 ≠ 233 / 100) := by
  refine ⟨?_, ?_, by norm_num⟩
  · simp [mergeResults, arRun, dimLookupScore]
    norm_num
  · unfold round2
    norm_num

/-- C2 witness: the amended theorem applied to the head dimension of the
concrete merged result of the runs scored 3, 4 and 5. -/
theorem c2_witness :
    (dW ∈ (mergeResults (arRun 3 2) (arRun 4 3) (arRun 5 4)).dimensionAnalysis) ∧
    dW.score = specDimMergedScore (arRun 3 2) (arRun 4 3) (arRun 5 4) dW.name :=
  ⟨List.mem_cons_self _ _,
   (c2_dimension_merge_amended (arRun 3 2) (arRun 4 3) (arRun 5 4)).2 dW
     (List.mem_cons_self _ _)⟩

end CommImprove

namespace CommImprove

/-- C3 witness: the theorem applied to a concrete successful aggregation whose
first run carries nonempty feedback, filler words and conversation. -/
theorem c3_witness :
    (analyzeAudio (.ok rawF) (.ok (rawRun 4 3)) (.ok (rawRun 5 4)) = .ok mergedF) ∧
    ∃ r1, performSingleAnalysis (.ok rawF) = .ok r1 ∧
      mergedF.feedback = r1.feedback ∧ mergedF.fillerWords = r1.fillerWords ∧
      mergedF.conversation = r1.conversation :=
  ⟨rfl, c3_qualitative_fields_from_first_run (.ok rawF) (.ok (rawRun 4 3)) (.ok (rawRun 5 4))
    mergedF rfl⟩

end CommImprove
